import Mathlib

/-!
Shallow embedding of the Iris on-device LLM core (core-llm/src/main/cpp):
`generation_engine.cpp` (token loop, greedy sampling, cancel),
`model_manager.cpp` (load/unload lifecycle) and `jni_bridge.cpp`
(the session registry `NativeState` with its per-operation handlers).

The llama.cpp runtime is out of scope of the repository; it is modelled as an
abstract `Backend` record of oracles (tokenize, decode, logits, end-of-
generation predicate, detokenize), each a pure function of the token history
the engine has decoded so far.  C++ exceptions become `Except`/`Option`
results; the `try`/`catch` bodies of the source are folded into total
functions that return the caught-path result.  C float values enter the code
only through IEEE `>` comparisons in `sampleToken`, so floats are embedded as
`FVal`: NaN, +Inf, -Inf or a finite rational, with `FVal.gt` the IEEE
strict-greater test (false whenever either side is NaN).
-/

/-- An IEEE float value as the sampling scan observes it: the code only ever
compares logits with `>`, so the embedding needs NaN, the two infinities and
finite values (represented exactly as rationals). -/
inductive FVal : Type where
  | nan : FVal
  | posInf : FVal
  | negInf : FVal
  | fin : ℚ → FVal
deriving DecidableEq

/-- IEEE strict `>` on `FVal`: any comparison involving NaN is false,
+Inf is greater than everything except itself and NaN, -Inf is greater
than nothing. -/
def FVal.gt : FVal → FVal → Bool
  | FVal.fin a, FVal.fin b => decide (b < a)
  | FVal.fin _, FVal.negInf => true
  | FVal.posInf, FVal.fin _ => true
  | FVal.posInf, FVal.negInf => true
  | _, _ => false

/-- Finiteness predicate on the embedded float values. -/
def FVal.isFinite : FVal → Bool
  | FVal.fin _ => true
  | _ => false

/-- NaN test on the embedded float values. -/
def FVal.isNan : FVal → Bool
  | FVal.nan => true
  | _ => false

/-- The C++ `static_cast<size_t>` applied to a (possibly negative) `int`,
as in `currentTokenIndex >= static_cast<size_t>(maxTokens)`
(generation_engine.cpp line 75): conversion modulo 2^64. -/
def castSizeT (m : Int) : Nat := (m % (2 : Int) ^ 64).toNat

/-- The C++ `static_cast<uint32_t>` used for the context seed
(model_manager.cpp line 48): conversion modulo 2^32. -/
def castU32 (x : Int) : Nat := (x % (2 : Int) ^ 32).toNat

/-- The llama.cpp runtime as consumed by the engine, abstracted to pure
oracles.  `tokenize` returns `none` when the fill call fails (source throws);
`decodeOk history batch` tells whether `llama_decode` accepts `batch` after
`history` has been decoded on the context; `getLogits history` is the logits
buffer after the last successful decode of `history`; `tokenToPiece` returns
`none` when `llama_token_to_piece` is negative (source throws). -/
structure Backend : Type where
  tokenize : String → Option (List Nat)
  decodeOk : List Nat → List Nat → Bool
  getLogits : List Nat → List FVal
  isEog : Nat → Bool
  tokenToPiece : Nat → Option String

/-- Session state of `GenerationEngine` (generation_engine.h lines 49-60).
`bound` models `modelManager != nullptr && context != nullptr`, fixed at
construction; `modelId` is the bound manager's id (what `getModelId` reads
through the pointer).  Token ids are the nonnegative `llama_token` values. -/
structure GenerationEngine : Type where
  bound : Bool
  modelId : String
  tokens : List Nat
  currentTokenIndex : Nat
  maxTokens : Int
  isComplete : Bool
  temperature : FVal
  topK : Int
  topP : FVal

/-- The `GenerationEngine` constructor (generation_engine.cpp lines 10-20):
stores the sampling configuration and budget, cursor 0, not complete. -/
def mkGenerationEngine (bound : Bool) (modelId : String) (temperature : FVal)
    (topK : Int) (topP : FVal) (maxTokens : Int) : GenerationEngine :=
  { bound := bound, modelId := modelId, tokens := [], currentTokenIndex := 0,
    maxTokens := maxTokens, isComplete := false, temperature := temperature,
    topK := topK, topP := topP }

/-- The scan of `sampleToken` (generation_engine.cpp lines 144-152): walk the
remaining candidates with the running `max_logit`/`max_token` pair, updating
both only on a strict IEEE `>`. -/
def sampleScan : List FVal → Nat → FVal → Nat → Nat
  | [], _, _, best => best
  | x :: rest, i, mx, best =>
    if FVal.gt x mx then sampleScan rest (i + 1) x i
    else sampleScan rest (i + 1) mx best

/-- `GenerationEngine::sampleToken` (generation_engine.cpp lines 121-155):
greedy argmax over the logits buffer, initial maximum `candidates[0]`.
The engine's sampling configuration is in scope but never read.  The empty
buffer (`n_vocab = 0`) indexes `candidates[0]` out of bounds in the source;
the embedding returns 0 there and every theorem assumes a nonempty buffer. -/
def GenerationEngine.sampleToken (_e : GenerationEngine) (logits : List FVal) : Nat :=
  match logits with
  | [] => 0
  | x :: rest => sampleScan rest 1 x 0

/-- `GenerationEngine::startGeneration` (generation_engine.cpp lines 26-66):
check binding, tokenize the prompt, decode it as one batch, set the cursor to
the prompt's token count, return the wall-clock session id `tnow`. -/
def startGeneration (b : Backend) (e : GenerationEngine) (prompt : String)
    (tnow : Int) : Except String (Int × GenerationEngine) :=
  if !e.bound then Except.error "Model not initialized"
  else
    match b.tokenize prompt with
    | none => Except.error "Failed to tokenize prompt"
    | some toks =>
      if b.decodeOk [] toks then
        Except.ok (tnow,
          { e with tokens := toks, currentTokenIndex := toks.length,
                   isComplete := false })
      else Except.error "Failed to process prompt"

/-- `GenerationEngine::generateNextToken` (generation_engine.cpp lines 68-119).
The `catch` of the source maps the one `throw` inside the try body (a failed
`llama_token_to_piece`, line 95) to `isComplete = true` and an empty result;
a rejected single-token decode (line 104) does the same after the token was
already pushed onto the history. -/
def generateNextToken (b : Backend) (e : GenerationEngine) :
    String × GenerationEngine :=
  if e.isComplete || !e.bound then ("", e)
  else if castSizeT e.maxTokens ≤ e.currentTokenIndex then
    ("", { e with isComplete := true })
  else if b.isEog (e.sampleToken (b.getLogits e.tokens)) then
    ("", { e with isComplete := true })
  else
    match b.tokenToPiece (e.sampleToken (b.getLogits e.tokens)) with
    | none => ("", { e with isComplete := true })
    | some text =>
      if b.decodeOk e.tokens [e.sampleToken (b.getLogits e.tokens)] then
        (text, { e with tokens := e.tokens ++ [e.sampleToken (b.getLogits e.tokens)],
                        currentTokenIndex := e.currentTokenIndex + 1 })
      else
        ("", { e with tokens := e.tokens ++ [e.sampleToken (b.getLogits e.tokens)],
                      isComplete := true })

/-- `GenerationEngine::cancel` (generation_engine.cpp lines 161-163). -/
def GenerationEngine.cancel (e : GenerationEngine) : GenerationEngine :=
  { e with isComplete := true }

/-- `GenerationEngine::getModelId` (generation_engine.cpp lines 157-159):
the bound manager's id, or empty when unbound. -/
def GenerationEngine.getModelId (e : GenerationEngine) : String :=
  if e.bound then e.modelId else ""

/-- `n` consecutive `generateNextToken` calls: the list of returned fragments
in order, and the final engine state. -/
def runSteps (b : Backend) (e : GenerationEngine) : Nat → List String × GenerationEngine
  | 0 => ([], e)
  | n + 1 =>
    ((generateNextToken b e).1 :: (runSteps b (generateNextToken b e).2 n).1,
      (runSteps b (generateNextToken b e).2 n).2)

/-- Number of non-empty fragments in a result list. -/
def countNonEmpty : List String → Nat
  | [] => 0
  | s :: rest => (if s = "" then 0 else 1) + countNonEmpty rest

/-- The engine-local invariant of claim C10: while the session is not
complete, the cursor equals the length of the accumulated token history. -/
def cursorInv (e : GenerationEngine) : Prop :=
  e.isComplete = false → e.currentTokenIndex = e.tokens.length

/-- `ModelManager` (model_manager.h): the process-unique id generated at
construction, and the owned model handle and inference context, each `none`
while unloaded.  Handles are abstracted to numeric identities. -/
structure ModelManager : Type where
  modelId : String
  model : Option Nat
  context : Option Nat

/-- The runtime calls `ModelManager::loadModel` consumes:
`llama_load_model_from_file` and `llama_new_context_with_model`
(arguments: handle, context size, effective seed, effective threads),
each `none` on rejection. -/
structure LoadEnv : Type where
  loadModelFromFile : String → Option Nat
  newContextWithModel : Nat → Int → Nat → Int → Option Nat

/-- Effective thread count (model_manager.cpp line 50): the configured value
if positive, else the fixed default 4. -/
def effThreads (threads : Int) : Int := if threads ≤ 0 then 4 else threads

/-- Effective seed (model_manager.cpp line 48): wall-clock time when the
caller passes -1, else the configured value, cast to `uint32_t`. -/
def effSeed (seed tnow : Int) : Nat :=
  if seed = -1 then castU32 tnow else castU32 seed

/-- `ModelManager::loadModel` (model_manager.cpp lines 31-68).  Returns the
result (id or error message), the manager's post-call field state, and the
list of model handles released on the way (the `llama_free_model` call of the
context-failure path, line 56). -/
def ModelManager.loadModel (env : LoadEnv) (mm : ModelManager) (path : String)
    (contextSize seed threads tnow : Int) :
    Except String String × ModelManager × List Nat :=
  match env.loadModelFromFile path with
  | none =>
    (Except.error ("Failed to load model from " ++ path),
      { mm with model := none }, [])
  | some h =>
    match env.newContextWithModel h contextSize (effSeed seed tnow)
        (effThreads threads) with
    | none =>
      (Except.error "Failed to create context",
        { mm with model := none, context := none }, [h])
    | some c =>
      (Except.ok mm.modelId, { mm with model := some h, context := some c }, [])

/-- `NativeState` (jni_bridge.cpp lines 16-29): the registry's two maps.
`std::unordered_map` is embedded as an association list whose keys are unique
(the map invariant); erasure removes every binding of the key, which agrees
with `erase` on such lists. -/
structure NativeState : Type where
  models : List (String × ModelManager)
  sessions : List (String × GenerationEngine)

/-- `find` on the embedded map: the first value bound to the key. -/
def lookupKey {α : Type} (k : String) : List (String × α) → Option α
  | [] => none
  | p :: rest => if p.1 = k then some p.2 else lookupKey k rest

/-- `erase` on the embedded map. -/
def eraseKey {α : Type} (k : String) : List (String × α) → List (String × α)
  | [] => []
  | p :: rest => if p.1 = k then eraseKey k rest else p :: eraseKey k rest

/-- In-place mutation of the value found for a key, as the iterator write
`sessionIt->second` performs. -/
def updateKey {α : Type} (k : String) (v : α) : List (String × α) → List (String × α)
  | [] => []
  | p :: rest => if p.1 = k then (p.1, v) :: updateKey k v rest
    else p :: updateKey k v rest

/-- The session sweep of `nativeUnloadModel` (jni_bridge.cpp lines 256-263):
erase every session whose `getModelId()` equals the unloaded id. -/
def sweepSessions (mid : String) :
    List (String × GenerationEngine) → List (String × GenerationEngine)
  | [] => []
  | p :: rest => if p.2.getModelId = mid then sweepSessions mid rest
    else p :: sweepSessions mid rest

/-- `nativeGenerateNextToken` (jni_bridge.cpp lines 174-201): an absent
session id returns `none` (the JNI `nullptr`, the uniform end-of-stream
signal) without touching the registry; otherwise the engine steps in place,
and an empty fragment erases and destroys the session before returning
`none`. -/
def nativeGenerateNextToken (b : Backend) (st : NativeState) (sid : Int) :
    Option String × NativeState :=
  match lookupKey (toString sid) st.sessions with
  | none => (none, st)
  | some e =>
    if (generateNextToken b e).1 = "" then
      (none, { st with sessions := eraseKey (toString sid) st.sessions })
    else
      (some (generateNextToken b e).1,
        { st with sessions := updateKey (toString sid) (generateNextToken b e).2 st.sessions })

/-- `nativeUnloadModel` (jni_bridge.cpp lines 243-279): when the model is
registered, sweep its sessions out of the session map, then erase the
manager, returning true; otherwise return false. -/
def nativeUnloadModel (st : NativeState) (mid : String) : Bool × NativeState :=
  match lookupKey mid st.models with
  | some _ =>
    (true, { models := eraseKey mid st.models,
             sessions := sweepSessions mid st.sessions })
  | none => (false, st)

/-- Concrete backend for witnesses: a two-token prompt, every decode
accepted, a fixed two-entry logits buffer, no end-of-generation token,
every piece the text "a". -/
def egBackend : Backend :=
  { tokenize := fun _ => some [0, 1], decodeOk := fun _ _ => true,
    getLogits := fun _ => [FVal.fin 1, FVal.fin 2],
    isEog := fun _ => false, tokenToPiece := fun _ => some "a" }

/-- Concrete backend for witnesses whose decode of a generated token is
rejected by the runtime. -/
def egBackendFail : Backend :=
  { tokenize := fun _ => some [0, 1], decodeOk := fun _ _ => false,
    getLogits := fun _ => [FVal.fin 1, FVal.fin 2],
    isEog := fun _ => false, tokenToPiece := fun _ => some "a" }

/-- Concrete freshly constructed engine for witnesses: bound to model "m1",
greedy-style configuration, budget 5. -/
def egEngine0 : GenerationEngine :=
  mkGenerationEngine true "m1" (FVal.fin 0) 1 (FVal.fin 1) 5

/-- `egEngine0` after a successful `startGeneration` of the two-token
prompt. -/
def egStarted : GenerationEngine :=
  { egEngine0 with tokens := [0, 1], currentTokenIndex := 2, isComplete := false }

/-- Concrete engine requesting the stochastic policy (temperature 2,
top-k 40, top-p 1/2). -/
def egStochasticCfg : GenerationEngine :=
  mkGenerationEngine true "m1" (FVal.fin 2) 40 (FVal.fin (1 / 2)) 128

/-- Concrete engine requesting the greedy policy (temperature 0, top-k 1,
top-p 1). -/
def egGreedyCfg : GenerationEngine :=
  mkGenerationEngine true "m1" (FVal.fin 0) 1 (FVal.fin 1) 128

/-- Concrete loaded manager for registry witnesses. -/
def egManager : ModelManager :=
  { modelId := "m1", model := some 1, context := some 1 }

/-- Concrete registry for witnesses: one model, one running session bound to
it under the wall-clock key "7". -/
def egNative : NativeState :=
  { models := [("m1", egManager)], sessions := [("7", egStarted)] }

/-- Concrete fresh manager for the load witness. -/
def egManager0 : ModelManager := { modelId := "m0", model := none, context := none }

/-- Concrete load environment for the C9 witness: the weights load as
handle 3, context construction is rejected. -/
def egLoadEnv : LoadEnv :=
  { loadModelFromFile := fun _ => some 3,
    newContextWithModel := fun _ _ _ _ => none }

/-! Helper lemmas about the embedded maps. -/

theorem lookupKey_eraseKey {α : Type} (k : String) :
    ∀ l : List (String × α), lookupKey k (eraseKey k l) = none := by
  intro l
  induction l with
  | nil => rfl
  | cons p rest ih =>
    by_cases h : p.1 = k
    · simpa [eraseKey, h] using ih
    · simpa [eraseKey, lookupKey, h] using ih

theorem lookupKey_updateKey {α : Type} (k : String) (v : α) :
    ∀ l : List (String × α),
      lookupKey k (updateKey k v l) = (lookupKey k l).map fun _ => v := by
  intro l
  induction l with
  | nil => rfl
  | cons p rest ih =>
    by_cases h : p.1 = k
    · simp [updateKey, lookupKey, h]
    · simpa [updateKey, lookupKey, h] using ih

theorem lookupKey_eq_none_of_not_mem {α : Type} (k : String) :
    ∀ l : List (String × α), k ∉ l.map Prod.fst → lookupKey k l = none := by
  intro l
  induction l with
  | nil => intro _; rfl
  | cons p rest ih =>
    intro h
    simp only [List.map_cons, List.mem_cons] at h
    push_neg at h
    have h1 : p.1 ≠ k := fun he => h.1 he.symm
    simpa [lookupKey, h1] using ih h.2

theorem lookupKey_sweep_of_none (mid k : String) :
    ∀ l : List (String × GenerationEngine), lookupKey k l = none →
      lookupKey k (sweepSessions mid l) = none := by
  intro l
  induction l with
  | nil => intro _; rfl
  | cons p rest ih =>
    intro h
    by_cases hk : p.1 = k
    · simp [lookupKey, hk] at h
    · simp only [lookupKey, if_neg hk] at h
      by_cases hm : p.2.getModelId = mid
      · simpa [sweepSessions, hm] using ih h
      · simpa [sweepSessions, lookupKey, hm, hk] using ih h

theorem lookupKey_sweep (mid k : String) :
    ∀ l : List (String × GenerationEngine), (l.map Prod.fst).Nodup →
      ∀ e, lookupKey k l = some e → e.getModelId = mid →
        lookupKey k (sweepSessions mid l) = none := by
  intro l
  induction l with
  | nil => intro _ e he; simp [lookupKey] at he
  | cons p rest ih =>
    intro hnd e he hm
    have hnd2 : p.1 ∉ rest.map Prod.fst ∧ (rest.map Prod.fst).Nodup := by
      simpa [List.nodup_cons] using hnd
    by_cases hk : p.1 = k
    · simp only [lookupKey, if_pos hk] at he
      have hpe : p.2 = e := Option.some.inj he
      have hpm : p.2.getModelId = mid := hpe ▸ hm
      have hrest : lookupKey k rest = none :=
        lookupKey_eq_none_of_not_mem k rest (hk ▸ hnd2.1)
      simpa [sweepSessions, hpm] using lookupKey_sweep_of_none mid k rest hrest
    · simp only [lookupKey, if_neg hk] at he
      by_cases hpm : p.2.getModelId = mid
      · simpa [sweepSessions, hpm] using ih hnd2.2 e he hm
      · simpa [sweepSessions, lookupKey, hpm, hk] using ih hnd2.2 e he hm

/-! Helper lemmas about the sampling scan. -/

theorem FVal.gt_true_shape {x y : FVal} (h : FVal.gt x y = true) :
    x.isNan = false ∧ x ≠ FVal.negInf := by
  cases x <;> cases y <;> simp_all [FVal.gt, FVal.isNan]

theorem getD_mem_q : ∀ (l : List ℚ) (j : Nat), j < l.length → l.getD j 0 ∈ l := by
  intro l
  induction l with
  | nil => intro j hj; simp at hj
  | cons a rest ih =>
    intro j hj
    cases j with
    | zero => simp
    | succ j =>
      simp only [List.getD_cons_succ, List.mem_cons]
      exact Or.inr (ih j (by simpa using hj))

theorem sampleScan_all_le (qs : List ℚ) : ∀ (i b : Nat) (m : ℚ),
    (∀ x ∈ qs, x ≤ m) → sampleScan (qs.map FVal.fin) i (FVal.fin m) b = b := by
  induction qs with
  | nil => intro i b m _; rfl
  | cons q rest ih =>
    intro i b m h
    have hq : q ≤ m := h q (List.mem_cons_self q rest)
    have hgt : FVal.gt (FVal.fin q) (FVal.fin m) = false := by
      simp [FVal.gt, not_lt.mpr hq]
    simp only [List.map_cons, sampleScan, hgt, Bool.false_eq_true, if_false]
    exact ih (i + 1) b m fun x hx => h x (List.mem_cons_of_mem q hx)

theorem sampleScan_exists_above (qs : List ℚ) : ∀ (i b : Nat) (m : ℚ),
    (∃ x ∈ qs, m < x) →
    ∃ k, k < qs.length ∧ sampleScan (qs.map FVal.fin) i (FVal.fin m) b = i + k ∧
      m < qs.getD k 0 ∧ (∀ j, j < qs.length → qs.getD j 0 ≤ qs.getD k 0) ∧
      (∀ j, j < k → qs.getD j 0 < qs.getD k 0) := by
  induction qs with
  | nil => intro i b m h; simp at h
  | cons q rest ih =>
    intro i b m h
    by_cases hq : m < q
    · have hgt : FVal.gt (FVal.fin q) (FVal.fin m) = true := by simp [FVal.gt, hq]
      simp only [List.map_cons, sampleScan, hgt, if_true]
      by_cases hall : ∀ x ∈ rest, x ≤ q
      · refine ⟨0, by simp, ?_, by simpa using hq, ?_, ?_⟩
        · simpa using sampleScan_all_le rest (i + 1) i q hall
        · intro j hj
          cases j with
          | zero => simp
          | succ j =>
            simp only [List.getD_cons_succ, List.getD_cons_zero]
            exact hall _ (getD_mem_q rest j (by simpa using hj))
        · intro j hj; omega
      · push_neg at hall
        obtain ⟨x, hx, hqx⟩ := hall
        obtain ⟨k, hk, hres, hgtk, hmax, hfirst⟩ :=
          ih (i + 1) i q ⟨x, hx, hqx⟩
        refine ⟨k + 1, by simpa using Nat.succ_lt_succ hk, ?_, ?_, ?_, ?_⟩
        · rw [hres]; omega
        · simpa using lt_trans hq hgtk
        · intro j hj
          cases j with
          | zero => simpa using le_of_lt hgtk
          | succ j =>
            simp only [List.getD_cons_succ]
            exact hmax j (by simpa using hj)
        · intro j hj
          cases j with
          | zero => simpa using hgtk
          | succ j =>
            simp only [List.getD_cons_succ]
            exact hfirst j (by omega)
    · have hgt : FVal.gt (FVal.fin q) (FVal.fin m) = false := by
        simp [FVal.gt, hq]
      simp only [List.map_cons, sampleScan, hgt, Bool.false_eq_true, if_false]
      have hq2 : q ≤ m := not_lt.mp hq
      have hrest : ∃ x ∈ rest, m < x := by
        obtain ⟨x, hx, hmx⟩ := h
        rcases List.mem_cons.mp hx with hxq | hxr
        · exact absurd (hxq ▸ hmx) hq
        · exact ⟨x, hxr, hmx⟩
      obtain ⟨k, hk, hres, hgtk, hmax, hfirst⟩ := ih (i + 1) b m hrest
      refine ⟨k + 1, by simpa using Nat.succ_lt_succ hk, ?_, ?_, ?_, ?_⟩
      · rw [hres]; omega
      · simpa using hgtk
      · intro j hj
        cases j with
        | zero =>
          simpa using le_of_lt (lt_of_le_of_lt hq2 hgtk)
        | succ j =>
          simp only [List.getD_cons_succ]
          exact hmax j (by simpa using hj)
      · intro j hj
        cases j with
        | zero => simpa using lt_of_le_of_lt hq2 hgtk
        | succ j =>
          simp only [List.getD_cons_succ]
          exact hfirst j (by omega)

theorem sampleScan_sel (l : List FVal) : ∀ (i b : Nat) (mx : FVal),
    sampleScan l i mx b = b ∨
    ∃ k, k < l.length ∧ sampleScan l i mx b = i + k ∧
      (l.getD k FVal.nan).isNan = false ∧ l.getD k FVal.nan ≠ FVal.negInf := by
  induction l with
  | nil => intro i b mx; left; rfl
  | cons x rest ih =>
    intro i b mx
    by_cases hx : FVal.gt x mx = true
    · simp only [sampleScan, hx, if_true]
      rcases ih (i + 1) i x with h | ⟨k, hk, hres, hnan, hneg⟩
      · right
        refine ⟨0, by simp, by simpa using h, ?_, ?_⟩
        · simpa using (FVal.gt_true_shape hx).1
        · simpa using (FVal.gt_true_shape hx).2
      · right
        refine ⟨k + 1, by simpa using Nat.succ_lt_succ hk, ?_, ?_, ?_⟩
        · rw [hres]; omega
        · simpa using hnan
        · simpa using hneg
    · rw [Bool.not_eq_true] at hx
      simp only [sampleScan, hx, Bool.false_eq_true, if_false]
      rcases ih (i + 1) b mx with h | ⟨k, hk, hres, hnan, hneg⟩
      · left; exact h
      · right
        refine ⟨k + 1, by simpa using Nat.succ_lt_succ hk, ?_, ?_, ?_⟩
        · rw [hres]; omega
        · simpa using hnan
        · simpa using hneg

/-! Helper lemmas about the generation loop. -/

theorem castSizeT_eq {m : Int} (h0 : 0 ≤ m) (h31 : m < (2 : Int) ^ 31) :
    castSizeT m = m.toNat := by
  unfold castSizeT
  rw [Int.emod_eq_of_lt h0 (lt_trans h31 (by norm_num))]

theorem startGeneration_ok {b : Backend} {e : GenerationEngine} {prompt : String}
    {tnow sid : Int} {e1 : GenerationEngine}
    (h : startGeneration b e prompt tnow = Except.ok (sid, e1)) :
    e.bound = true ∧ sid = tnow ∧ ∃ toks, b.tokenize prompt = some toks ∧
      b.decodeOk [] toks = true ∧
      e1 = { e with tokens := toks, currentTokenIndex := toks.length,
                    isComplete := false } := by
  cases hb : e.bound with
  | false => simp [startGeneration, hb] at h
  | true =>
    simp only [startGeneration, hb, Bool.not_true, Bool.false_eq_true, if_false] at h
    cases htk : b.tokenize prompt with
    | none => simp [htk] at h
    | some toks =>
      rw [htk] at h
      cases hd : b.decodeOk [] toks with
      | false => simp [hd] at h
      | true =>
        simp only [hd, if_true, Except.ok.injEq, Prod.mk.injEq] at h
        exact ⟨rfl, h.1.symm, toks, rfl, hd, h.2.symm⟩

theorem step_cases (b : Backend) (e : GenerationEngine) :
    (generateNextToken b e).2.maxTokens = e.maxTokens ∧
    (generateNextToken b e).2.bound = e.bound ∧
    ((generateNextToken b e).2.currentTokenIndex = e.currentTokenIndex ∨
      ((generateNextToken b e).2.currentTokenIndex = e.currentTokenIndex + 1 ∧
        e.currentTokenIndex < castSizeT e.maxTokens)) ∧
    ((generateNextToken b e).1 ≠ "" →
      (generateNextToken b e).2.currentTokenIndex = e.currentTokenIndex + 1) := by
  by_cases h1 : (e.isComplete || !e.bound) = true
  · have hg : generateNextToken b e = ("", e) := by simp [generateNextToken, h1]
    rw [hg]
    exact ⟨rfl, rfl, Or.inl rfl, fun h => absurd rfl h⟩
  · rw [Bool.not_eq_true] at h1
    by_cases h2 : castSizeT e.maxTokens ≤ e.currentTokenIndex
    · have hg : generateNextToken b e = ("", { e with isComplete := true }) := by
        simp [generateNextToken, h1, h2]
      rw [hg]
      exact ⟨rfl, rfl, Or.inl rfl, fun h => absurd rfl h⟩
    · have hlt : e.currentTokenIndex < castSizeT e.maxTokens := not_le.mp h2
      by_cases h3 : b.isEog (e.sampleToken (b.getLogits e.tokens)) = true
      · have hg : generateNextToken b e = ("", { e with isComplete := true }) := by
          simp [generateNextToken, h1, h2, h3]
        rw [hg]
        exact ⟨rfl, rfl, Or.inl rfl, fun h => absurd rfl h⟩
      · rw [Bool.not_eq_true] at h3
        cases h4 : b.tokenToPiece (e.sampleToken (b.getLogits e.tokens)) with
        | none =>
          have hg : generateNextToken b e = ("", { e with isComplete := true }) := by
            simp [generateNextToken, h1, h2, h3, h4]
          rw [hg]
          exact ⟨rfl, rfl, Or.inl rfl, fun h => absurd rfl h⟩
        | some text =>
          by_cases h5 : b.decodeOk e.tokens [e.sampleToken (b.getLogits e.tokens)] = true
          · have hg : generateNextToken b e =
                (text, { e with
                  tokens := e.tokens ++ [e.sampleToken (b.getLogits e.tokens)],
                  currentTokenIndex := e.currentTokenIndex + 1 }) := by
              simp [generateNextToken, h1, h2, h3, h4, h5]
            rw [hg]
            exact ⟨rfl, rfl, Or.inr ⟨rfl, hlt⟩, fun _ => rfl⟩
          · rw [Bool.not_eq_true] at h5
            have hg : generateNextToken b e =
                ("", { e with
                  tokens := e.tokens ++ [e.sampleToken (b.getLogits e.tokens)],
                  isComplete := true }) := by
              simp [generateNextToken, h1, h2, h3, h4, h5]
            rw [hg]
            exact ⟨rfl, rfl, Or.inl rfl, fun h => absurd rfl h⟩

theorem generateNextToken_complete (b : Backend) (e : GenerationEngine)
    (h : e.isComplete = true) : generateNextToken b e = ("", e) := by
  simp [generateNextToken, h]

theorem runSteps_complete (b : Backend) : ∀ (n : Nat) (e : GenerationEngine),
    e.isComplete = true →
    (runSteps b e n).1 = List.replicate n "" ∧ (runSteps b e n).2 = e := by
  intro n
  induction n with
  | zero => intro e _; exact ⟨rfl, rfl⟩
  | succ n ih =>
    intro e h
    have hstep := generateNextToken_complete b e h
    obtain ⟨h1, h2⟩ := ih e h
    simp [runSteps, hstep, h1, h2, List.replicate_succ]

theorem runSteps_length (b : Backend) : ∀ (n : Nat) (e : GenerationEngine),
    ((runSteps b e n).1).length = n := by
  intro n
  induction n with
  | zero => intro e; rfl
  | succ n ih => intro e; simp [runSteps, ih]

theorem countNonEmpty_of_no_empty : ∀ l : List String, "" ∉ l →
    countNonEmpty l = l.length := by
  intro l
  induction l with
  | nil => intro _; rfl
  | cons s rest ih =>
    intro h
    simp only [List.mem_cons] at h
    push_neg at h
    have hs : s ≠ "" := fun he => h.1 he.symm
    simp only [countNonEmpty, hs, if_false, List.length_cons, ih h.2]
    omega

theorem countNonEmpty_le (b : Backend) : ∀ (n : Nat) (e : GenerationEngine),
    countNonEmpty (runSteps b e n).1 ≤ castSizeT e.maxTokens - e.currentTokenIndex := by
  intro n
  induction n with
  | zero => intro e; simp [runSteps, countNonEmpty]
  | succ n ih =>
    intro e
    obtain ⟨hmax, _hb, hcur, hne⟩ := step_cases b e
    have hih := ih (generateNextToken b e).2
    rw [hmax] at hih
    simp only [runSteps, countNonEmpty]
    by_cases ht : (generateNextToken b e).1 = ""
    · simp only [ht, if_true]
      rcases hcur with h | ⟨h, hlt⟩ <;> rw [h] at hih <;> omega
    · simp only [ht, if_false]
      have h2 := hne ht
      rw [h2] at hih
      rcases hcur with h | ⟨h, hlt⟩
      · rw [h2] at h; omega
      · omega

theorem step_inv (b : Backend) (e : GenerationEngine) (h : cursorInv e) :
    cursorInv (generateNextToken b e).2 := by
  by_cases h1 : (e.isComplete || !e.bound) = true
  · have hg : generateNextToken b e = ("", e) := by simp [generateNextToken, h1]
    rw [hg]
    exact h
  · rw [Bool.not_eq_true] at h1
    have he : e.isComplete = false := (Bool.or_eq_false_iff.mp h1).1
    by_cases h2 : castSizeT e.maxTokens ≤ e.currentTokenIndex
    · have hg : generateNextToken b e = ("", { e with isComplete := true }) := by
        simp [generateNextToken, h1, h2]
      rw [hg]
      intro hc
      simp at hc
    · by_cases h3 : b.isEog (e.sampleToken (b.getLogits e.tokens)) = true
      · have hg : generateNextToken b e = ("", { e with isComplete := true }) := by
          simp [generateNextToken, h1, h2, h3]
        rw [hg]
        intro hc
        simp at hc
      · rw [Bool.not_eq_true] at h3
        cases h4 : b.tokenToPiece (e.sampleToken (b.getLogits e.tokens)) with
        | none =>
          have hg : generateNextToken b e = ("", { e with isComplete := true }) := by
            simp [generateNextToken, h1, h2, h3, h4]
          rw [hg]
          intro hc
          simp at hc
        | some text =>
          by_cases h5 : b.decodeOk e.tokens [e.sampleToken (b.getLogits e.tokens)] = true
          · have hg : generateNextToken b e =
                (text, { e with
                  tokens := e.tokens ++ [e.sampleToken (b.getLogits e.tokens)],
                  currentTokenIndex := e.currentTokenIndex + 1 }) := by
              simp [generateNextToken, h1, h2, h3, h4, h5]
            rw [hg]
            intro _
            simp [h he]
          · rw [Bool.not_eq_true] at h5
            have hg : generateNextToken b e =
                ("", { e with
                  tokens := e.tokens ++ [e.sampleToken (b.getLogits e.tokens)],
                  isComplete := true }) := by
              simp [generateNextToken, h1, h2, h3, h4, h5]
            rw [hg]
            intro hc
            simp at hc

theorem runSteps_inv (b : Backend) : ∀ (n : Nat) (e : GenerationEngine),
    cursorInv e → cursorInv (runSteps b e n).2 := by
  intro n
  induction n with
  | zero => intro e h; exact h
  | succ n ih =>
    intro e h
    simpa [runSteps] using ih (generateNextToken b e).2 (step_inv b e h)

/-- C1: for a session started with a finite max-token budget, the cursor is
initialized to the prompt's token count, each non-empty fragment advances it
by one, reaching the budget transitions the engine to Complete with an empty
result, and any run of `generateNextToken` calls yields at most
maxTokens - promptLength non-empty fragments (truncated subtraction, i.e.
max 0 of the difference); a run longer than that bound contains an empty
terminating result. -/
theorem C1_token_budget (b : Backend) (e0 e1 : GenerationEngine)
    (prompt : String) (tnow sid : Int)
    (hm : 0 ≤ e0.maxTokens) (hm31 : e0.maxTokens < (2 : Int) ^ 31)
    (hstart : startGeneration b e0 prompt tnow = Except.ok (sid, e1)) (n : Nat) :
    (∀ toks, b.tokenize prompt = some toks →
      e1.currentTokenIndex = toks.length) ∧
    (∀ (e : GenerationEngine) (t : String) (e2 : GenerationEngine),
      generateNextToken b e = (t, e2) → t ≠ "" →
        e2.currentTokenIndex = e.currentTokenIndex + 1) ∧
    (∀ e : GenerationEngine, e.isComplete = false → e.bound = true →
      castSizeT e.maxTokens ≤ e.currentTokenIndex →
        generateNextToken b e = ("", { e with isComplete := true })) ∧
    countNonEmpty (runSteps b e1 n).1 ≤
      e0.maxTokens.toNat - e1.currentTokenIndex ∧
    (e0.maxTokens.toNat - e1.currentTokenIndex < n →
      "" ∈ (runSteps b e1 n).1) := by
  obtain ⟨hbound, hsid, toks0, htk, hdec, he1⟩ := startGeneration_ok hstart
  have hmaxeq : e1.maxTokens = e0.maxTokens := by rw [he1]
  have hcast : castSizeT e1.maxTokens = e0.maxTokens.toNat := by
    rw [hmaxeq]
    exact castSizeT_eq hm hm31
  have hb4 : countNonEmpty (runSteps b e1 n).1 ≤
      e0.maxTokens.toNat - e1.currentTokenIndex := by
    have h := countNonEmpty_le b n e1
    rwa [hcast] at h
  refine ⟨?_, ?_, ?_, hb4, ?_⟩
  · intro toks htoks
    have heq : toks = toks0 := by
      rw [htk] at htoks
      exact (Option.some.inj htoks).symm
    subst heq
    rw [he1]
  · intro e t e2 hstep hne
    have h := (step_cases b e).2.2.2
    rw [hstep] at h
    exact h hne
  · intro e hc hb hge
    simp [generateNextToken, hc, hb, hge]
  · intro hlt
    by_contra hmem
    have hcount := countNonEmpty_of_no_empty _ hmem
    have hlen := runSteps_length b n e1
    rw [hlen] at hcount
    omega

/-- Witness for C1 at the concrete backend and started session: 9 calls
against budget 5 with a 2-token prompt yield at most 5 - 2 non-empty
fragments. -/
theorem C1_token_budget_witness :
    countNonEmpty (runSteps egBackend egStarted 9).1 ≤
      egEngine0.maxTokens.toNat - egStarted.currentTokenIndex :=
  (C1_token_budget egBackend egEngine0 egStarted "hi" 7 7 (by decide)
    (by decide) rfl 9).2.2.2.1

/-- C2: a per-token-step failure (detokenization rejected, or the
single-token decode rejected by the runtime) never propagates to the caller:
the call returns an empty result and the session transitions to Complete,
exactly like natural end-of-stream. -/
theorem C2_step_failure_silent (b : Backend) (e : GenerationEngine)
    (h1 : e.isComplete = false) (h2 : e.bound = true)
    (h3 : e.currentTokenIndex < castSizeT e.maxTokens)
    (h4 : b.tokenToPiece (e.sampleToken (b.getLogits e.tokens)) = none ∨
          b.decodeOk e.tokens [e.sampleToken (b.getLogits e.tokens)] = false) :
    (generateNextToken b e).1 = "" ∧
    (generateNextToken b e).2.isComplete = true := by
  have hg1 : (e.isComplete || !e.bound) = false := by simp [h1, h2]
  have hnle : ¬(castSizeT e.maxTokens ≤ e.currentTokenIndex) := not_le.mpr h3
  by_cases h5 : b.isEog (e.sampleToken (b.getLogits e.tokens)) = true
  · have hg : generateNextToken b e = ("", { e with isComplete := true }) := by
      simp [generateNextToken, hg1, hnle, h5]
    rw [hg]
    exact ⟨rfl, rfl⟩
  · rw [Bool.not_eq_true] at h5
    rcases h4 with hp | hd
    · have hg : generateNextToken b e = ("", { e with isComplete := true }) := by
        simp [generateNextToken, hg1, hnle, h5, hp]
      rw [hg]
      exact ⟨rfl, rfl⟩
    · cases hp : b.tokenToPiece (e.sampleToken (b.getLogits e.tokens)) with
      | none =>
        have hg : generateNextToken b e = ("", { e with isComplete := true }) := by
          simp [generateNextToken, hg1, hnle, h5, hp]
        rw [hg]
        exact ⟨rfl, rfl⟩
      | some text =>
        have hg : generateNextToken b e =
            ("", { e with
              tokens := e.tokens ++ [e.sampleToken (b.getLogits e.tokens)],
              isComplete := true }) := by
          simp [generateNextToken, hg1, hnle, h5, hp, hd]
        rw [hg]
        exact ⟨rfl, rfl⟩

/-- Witness for C2: against the backend whose single-token decode is
rejected, the mid-stream session returns empty and completes. -/
theorem C2_step_failure_silent_witness :
    (generateNextToken egBackendFail egStarted).1 = "" ∧
    (generateNextToken egBackendFail egStarted).2.isComplete = true :=
  C2_step_failure_silent egBackendFail egStarted rfl rfl (by decide)
    (Or.inr rfl)

/-- C7: `cancel` transitions the session to Complete from any state, is
idempotent, and every `generateNextToken` call issued after a cancel returns
an empty result regardless of the remaining token budget (a run of any
length yields only empty results). -/
theorem C7_cancel_idempotent (b : Backend) (e : GenerationEngine) (n : Nat) :
    (GenerationEngine.cancel e).isComplete = true ∧
    GenerationEngine.cancel (GenerationEngine.cancel e) =
      GenerationEngine.cancel e ∧
    (runSteps b (GenerationEngine.cancel e) n).1 = List.replicate n "" :=
  ⟨rfl, rfl, (runSteps_complete b n (GenerationEngine.cancel e) rfl).1⟩

/-- C10: the engine-local invariant "not complete implies the cursor equals
the token-history length" is established by `startGeneration`, preserved by
every `generateNextToken` call (from any state satisfying it) and by
`cancel`, and therefore holds along every run from a started session. -/
theorem C10_cursor_invariant (b : Backend) (e0 e1 : GenerationEngine)
    (prompt : String) (tnow sid : Int)
    (hstart : startGeneration b e0 prompt tnow = Except.ok (sid, e1))
    (s : GenerationEngine) (hs : cursorInv s) (n : Nat) :
    cursorInv e1 ∧ cursorInv (generateNextToken b s).2 ∧
    cursorInv (GenerationEngine.cancel s) ∧
    cursorInv (runSteps b e1 n).2 := by
  obtain ⟨hbound, hsid, toks, htk, hdec, he1⟩ := startGeneration_ok hstart
  have hinv1 : cursorInv e1 := by
    rw [he1]
    intro _
    rfl
  refine ⟨hinv1, step_inv b s hs, ?_, runSteps_inv b n e1 hinv1⟩
  intro hc
  simp [GenerationEngine.cancel] at hc

/-- Witness for C10 at the concrete started session. -/
theorem C10_cursor_invariant_witness :
    cursorInv egStarted ∧
    cursorInv (generateNextToken egBackend egStarted).2 ∧
    cursorInv (GenerationEngine.cancel egStarted) ∧
    cursorInv (runSteps egBackend egStarted 3).2 :=
  C10_cursor_invariant egBackend egEngine0 egStarted "hi" 7 7 rfl egStarted
    (fun _ => rfl) 3

/-- C3: the registry-level next-token operation: an absent session id yields
an empty result (no error) and an unchanged registry; a non-empty engine
result leaves the session registered (with the stepped engine state); an
empty engine result removes the session before returning empty, so the id is
absent immediately after the first empty result. -/
theorem C3_registry_next_token (b : Backend) (st : NativeState) (sid : Int) :
    (lookupKey (toString sid) st.sessions = none →
      nativeGenerateNextToken b st sid = (none, st)) ∧
    (∀ e, lookupKey (toString sid) st.sessions = some e →
      (generateNextToken b e).1 ≠ "" →
        (nativeGenerateNextToken b st sid).1 = some (generateNextToken b e).1 ∧
        lookupKey (toString sid)
            (nativeGenerateNextToken b st sid).2.sessions =
          some (generateNextToken b e).2) ∧
    (∀ e, lookupKey (toString sid) st.sessions = some e →
      (generateNextToken b e).1 = "" →
        (nativeGenerateNextToken b st sid).1 = none ∧
        lookupKey (toString sid)
          (nativeGenerateNextToken b st sid).2.sessions = none) := by
  refine ⟨?_, ?_, ?_⟩
  · intro h
    simp [nativeGenerateNextToken, h]
  · intro e he hne
    have hg : nativeGenerateNextToken b st sid =
        (some (generateNextToken b e).1,
          { st with sessions :=
              updateKey (toString sid) (generateNextToken b e).2 st.sessions }) := by
      simp [nativeGenerateNextToken, he, hne]
    rw [hg]
    refine ⟨rfl, ?_⟩
    rw [lookupKey_updateKey, he]
    rfl
  · intro e he hemp
    have hg : nativeGenerateNextToken b st sid =
        (none, { st with sessions := eraseKey (toString sid) st.sessions }) := by
      simp [nativeGenerateNextToken, he, hemp]
    rw [hg]
    exact ⟨rfl, lookupKey_eraseKey _ _⟩

/-- C8: when the model is registered, `nativeUnloadModel` returns true,
removes the manager, removes every session whose bound model identifier
equals the unloaded id, and afterwards `nativeGenerateNextToken` on those
session ids returns empty with the registry unchanged. -/
theorem C8_unload_sessions (b : Backend) (st : NativeState) (mid : String)
    (M : ModelManager)
    (hnd : (st.sessions.map Prod.fst).Nodup)
    (hfound : lookupKey mid st.models = some M) :
    (nativeUnloadModel st mid).1 = true ∧
    lookupKey mid (nativeUnloadModel st mid).2.models = none ∧
    (∀ (sid : Int) (e : GenerationEngine),
      lookupKey (toString sid) st.sessions = some e → e.getModelId = mid →
        lookupKey (toString sid) (nativeUnloadModel st mid).2.sessions = none ∧
        nativeGenerateNextToken b (nativeUnloadModel st mid).2 sid =
          (none, (nativeUnloadModel st mid).2)) := by
  have hg : nativeUnloadModel st mid =
      (true, { models := eraseKey mid st.models,
               sessions := sweepSessions mid st.sessions }) := by
    simp [nativeUnloadModel, hfound]
  rw [hg]
  refine ⟨rfl, lookupKey_eraseKey _ _, ?_⟩
  intro sid e he hm
  have hnone : lookupKey (toString sid) (sweepSessions mid st.sessions) = none :=
    lookupKey_sweep mid (toString sid) st.sessions hnd e he hm
  exact ⟨hnone, by simp [nativeGenerateNextToken, hnone]⟩

/-- Witness for C8 at the concrete registry: unloading "m1" removes the
single session bound to it. -/
theorem C8_unload_sessions_witness :
    (nativeUnloadModel egNative "m1").1 = true ∧
    lookupKey "m1" (nativeUnloadModel egNative "m1").2.models = none ∧
    (∀ (sid : Int) (e : GenerationEngine),
      lookupKey (toString sid) egNative.sessions = some e →
      e.getModelId = "m1" →
        lookupKey (toString sid)
          (nativeUnloadModel egNative "m1").2.sessions = none ∧
        nativeGenerateNextToken egBackend (nativeUnloadModel egNative "m1").2 sid =
          (none, (nativeUnloadModel egNative "m1").2)) :=
  C8_unload_sessions egBackend egNative "m1" egManager (by decide) rfl

/-- C9: when the model weights load but context construction fails,
`loadModel` releases the model handle (it is in the freed list), resets the
manager's model and context fields to null, and propagates the error: no
partially-initialized manager state remains. -/
theorem C9_load_atomic (env : LoadEnv) (mm : ModelManager) (path : String)
    (contextSize seed threads tnow : Int) (h : Nat)
    (hload : env.loadModelFromFile path = some h)
    (hctx : env.newContextWithModel h contextSize (effSeed seed tnow)
        (effThreads threads) = none) :
    ModelManager.loadModel env mm path contextSize seed threads tnow =
      (Except.error "Failed to create context",
        { mm with model := none, context := none }, [h]) := by
  simp [ModelManager.loadModel, hload, hctx]

/-- Witness for C9 at the concrete load environment. -/
theorem C9_load_atomic_witness :
    ModelManager.loadModel egLoadEnv egManager0 "m.gguf" 512 (-1) 4 99 =
      (Except.error "Failed to create context",
        { egManager0 with model := none, context := none }, [3]) :=
  C9_load_atomic egLoadEnv egManager0 "m.gguf" 512 (-1) 4 99 3 rfl rfl

/-- C4: greedy sampling is a deterministic function of the logits buffer:
on a buffer of finite scores, `sampleToken` returns an in-range token id
whose score is maximal, every earlier id has a strictly smaller score (the
lowest id wins ties, first occurrence of the maximum under a left-to-right
scan), and the selected id does not depend on the engine instance. -/
theorem C4_greedy_argmax (e e2 : GenerationEngine) (qs : List ℚ)
    (hne : qs ≠ []) :
    e.sampleToken (qs.map FVal.fin) < qs.length ∧
    (∀ j, j < qs.length →
      qs.getD j 0 ≤ qs.getD (e.sampleToken (qs.map FVal.fin)) 0) ∧
    (∀ j, j < e.sampleToken (qs.map FVal.fin) →
      qs.getD j 0 < qs.getD (e.sampleToken (qs.map FVal.fin)) 0) ∧
    e.sampleToken (qs.map FVal.fin) = e2.sampleToken (qs.map FVal.fin) := by
  cases qs with
  | nil => exact absurd rfl hne
  | cons q rest =>
    have hdet : e.sampleToken ((q :: rest).map FVal.fin) =
        e2.sampleToken ((q :: rest).map FVal.fin) := rfl
    by_cases hall : ∀ x ∈ rest, x ≤ q
    · have hres : e.sampleToken ((q :: rest).map FVal.fin) = 0 := by
        simpa [GenerationEngine.sampleToken] using
          sampleScan_all_le rest 1 0 q hall
      rw [hres]
      refine ⟨by simp, ?_, ?_, hres ▸ hdet⟩
      · intro j hj
        cases j with
        | zero => simp
        | succ j =>
          simp only [List.getD_cons_succ, List.getD_cons_zero]
          exact hall _ (getD_mem_q rest j (by simpa using hj))
      · intro j hj
        omega
    · push_neg at hall
      obtain ⟨x, hx, hqx⟩ := hall
      obtain ⟨k, hk, hres0, hgtk, hmax, hfirst⟩ :=
        sampleScan_exists_above rest 1 0 q ⟨x, hx, hqx⟩
      have hres : e.sampleToken ((q :: rest).map FVal.fin) = k + 1 := by
        simpa [GenerationEngine.sampleToken, Nat.add_comm] using hres0
      rw [hres]
      refine ⟨?_, ?_, ?_, hres ▸ hdet⟩
      · simp only [List.length_cons]
        omega
      · intro j hj
        cases j with
        | zero =>
          simp only [List.getD_cons_succ, List.getD_cons_zero]
          exact le_of_lt hgtk
        | succ j =>
          simp only [List.getD_cons_succ]
          exact hmax j (by simpa using hj)
      · intro j hj
        cases j with
        | zero =>
          simp only [List.getD_cons_succ, List.getD_cons_zero]
          exact hgtk
        | succ j =>
          simp only [List.getD_cons_succ]
          exact hfirst j (by omega)

/-- Witness for C4 on the concrete buffer [1, 3, 3, 2]: the selected id is
in range (it is 1, the first of the two tied maxima). -/
theorem C4_greedy_argmax_witness :
    egEngine0.sampleToken ([(1 : ℚ), 3, 3, 2].map FVal.fin) <
      [(1 : ℚ), 3, 3, 2].length :=
  (C4_greedy_argmax egEngine0 egStarted [(1 : ℚ), 3, 3, 2] (by simp)).1

/-- C5 counterexample: a configuration requesting stochastic sampling
(temperature 2, top-k 40, top-p 1/2) and the greedy configuration
(temperature 0, top-k 1, top-p 1) differ in every sampling field, yet
`sampleToken` returns the same deterministic argmax for both on a buffer
where a stochastic top-k/top-p draw would have several candidates: the
configuration does not select a sampling policy. -/
theorem C5_sampling_config_counterexample :
    egStochasticCfg.temperature ≠ egGreedyCfg.temperature ∧
    egStochasticCfg.topK ≠ egGreedyCfg.topK ∧
    egStochasticCfg.topP ≠ egGreedyCfg.topP ∧
    egStochasticCfg.sampleToken
        [FVal.fin 1, FVal.fin 2, FVal.fin 5, FVal.fin 4] =
      egGreedyCfg.sampleToken
        [FVal.fin 1, FVal.fin 2, FVal.fin 5, FVal.fin 4] ∧
    egStochasticCfg.sampleToken
        [FVal.fin 1, FVal.fin 2, FVal.fin 5, FVal.fin 4] = 2 :=
  ⟨by decide, by decide,
    by norm_num [egStochasticCfg, egGreedyCfg, mkGenerationEngine],
    rfl, by decide⟩

/-- C5 amended: the constructor stores the temperature/top-k/top-p
configuration on the session, but `sampleToken` never reads it — its result
is a function of the logits alone, identical for every configuration, so
only the greedy argmax variant is implemented and no configuration selects
stochastic sampling. -/
theorem C5_sampling_config_ignored (bd : Bool) (mid : String)
    (t t2 p p2 : FVal) (k k2 maxT : Int) (e e2 : GenerationEngine)
    (l : List FVal) :
    (mkGenerationEngine bd mid t k p maxT).temperature = t ∧
    (mkGenerationEngine bd mid t k p maxT).topK = k ∧
    (mkGenerationEngine bd mid t k p maxT).topP = p ∧
    (mkGenerationEngine bd mid t k p maxT).sampleToken l =
      (mkGenerationEngine bd mid t2 k2 p2 maxT).sampleToken l ∧
    e.sampleToken l = e2.sampleToken l :=
  ⟨rfl, rfl, rfl, rfl, rfl⟩

/-- C6 counterexample: on the buffer [+Inf, 0.0], which contains a
non-finite entry and a finite entry, `sampleToken` selects index 0 — a
non-finite entry — although not every entry is non-finite, and no
sampling failure is raised. -/
theorem C6_nonfinite_counterexample :
    egEngine0.sampleToken [FVal.posInf, FVal.fin 0] = 0 ∧
    FVal.isFinite ([FVal.posInf, FVal.fin 0].getD
      (egEngine0.sampleToken [FVal.posInf, FVal.fin 0]) FVal.nan) = false ∧
    FVal.isFinite ([FVal.posInf, FVal.fin 0].getD 1 FVal.nan) = true :=
  ⟨rfl, rfl, rfl⟩

/-- C6 amended: `sampleToken` never fails with a SamplingFailure — on every
nonempty buffer, an all-non-finite one included, it returns an in-range
index.  Non-finite entries are only partially deprioritized: a NaN or -Inf
entry at a positive index is never selected (IEEE `>` against them is
false), so a selected positive index always holds a +Inf or finite entry;
but a non-finite index-0 entry can be selected while finite entries are
present (the counterexample's [+Inf, 0.0] selects index 0), and an
all-non-finite buffer can even yield a positive index rather than 0 or an
error: on [-Inf, +Inf] the scan returns index 1, the +Inf entry. -/
theorem C6_nonfinite_amended (e : GenerationEngine) (l : List FVal)
    (hne : l ≠ []) :
    e.sampleToken l < l.length ∧
    (∀ i, 0 < i → e.sampleToken l = i →
      (l.getD i FVal.nan).isNan = false ∧
      l.getD i FVal.nan ≠ FVal.negInf) ∧
    e.sampleToken [FVal.negInf, FVal.posInf] = 1 := by
  have hmain : e.sampleToken l < l.length ∧
      (∀ i, 0 < i → e.sampleToken l = i →
        (l.getD i FVal.nan).isNan = false ∧
        l.getD i FVal.nan ≠ FVal.negInf) := by
    cases l with
    | nil => exact absurd rfl hne
    | cons x rest =>
      rcases sampleScan_sel rest 1 0 x with h | ⟨k, hk, hres, hnan, hneg⟩
      · have hres0 : e.sampleToken (x :: rest) = 0 := by
          simpa [GenerationEngine.sampleToken] using h
        rw [hres0]
        refine ⟨by simp, ?_⟩
        intro i hi h0
        omega
      · have hres2 : e.sampleToken (x :: rest) = k + 1 := by
          simpa [GenerationEngine.sampleToken, Nat.add_comm] using hres
        rw [hres2]
        constructor
        · simp only [List.length_cons]
          omega
        · intro i hi heq
          rw [← heq]
          constructor
          · simpa [List.getD_cons_succ] using hnan
          · simpa [List.getD_cons_succ] using hneg
  exact ⟨hmain.1, hmain.2, rfl⟩

/-- Witness for C6's amended statement on the concrete buffer
[1.0, +Inf]. -/
theorem C6_nonfinite_amended_witness :
    egEngine0.sampleToken [FVal.fin 1, FVal.posInf] <
      [FVal.fin 1, FVal.posInf].length ∧
    (∀ i, 0 < i → egEngine0.sampleToken [FVal.fin 1, FVal.posInf] = i →
      ([FVal.fin 1, FVal.posInf].getD i FVal.nan).isNan = false ∧
      [FVal.fin 1, FVal.posInf].getD i FVal.nan ≠ FVal.negInf) ∧
    egEngine0.sampleToken [FVal.negInf, FVal.posInf] = 1 :=
  C6_nonfinite_amended egEngine0 [FVal.fin 1, FVal.posInf] (by simp)
